import Mathlib

/-!
Verification of `lib/sqlalchemy/util/compat.py` (compatibility utilities
module): a shallow embedding of its functions and proofs of the documented
properties.  Python byte strings are modelled as `List Nat` (each element a
byte value `< 256`), text strings as Lean `String`/`List Char` (code points),
dictionaries as association lists, and fallible Python calls as `Except`
values whose `.error` payload names the raised exception.
-/

namespace Compat

/-- PyVal is the universe of Python values that appear as defaults and
annotations in the claims: integers, strings and class objects (a class
object carries its `__module__` and `__qualname__`). -/
inductive PyVal where
  | int (n : Int)
  | str (s : String)
  | type (module qualname : String)
deriving DecidableEq

/-- Python `repr` of a string without special characters: surrounded by
single quotes. -/
def reprStr (s : String) : String := "\x27" ++ s ++ "\x27"

/-- Python `repr` on the modelled values. -/
def reprV : PyVal → String
  | .int n => toString n
  | .str s => reprStr s
  | .type m q => "<class \x27" ++ m ++ "." ++ q ++ "\x27>"

/-- Python `getattr(v, "__module__", None)`: only class objects carry a
module attribute among the modelled values. -/
def pyModule : PyVal → Option String
  | .type m _ => some m
  | _ => none

/-- Dictionary lookup on an association list (first binding wins, as in a
Python dict, whose keys are unique). -/
def alookup {K V : Type} [DecidableEq K] (k : K) : List (K × V) → Option V
  | [] => none
  | (k1, v) :: rest => if k1 = k then some v else alookup k rest

/-! ## Base64: `b64encode` / `b64decode` (compat.py lines 122-127)

`b64encode(x)` is `base64.b64encode(x).decode("ascii")` and `b64decode(x)`
is `base64.b64decode(x.encode("ascii"))`.  The underlying `binascii`
routines `b2a_base64` / `a2b_base64` (non-strict mode) are embedded below:
the encoder emits the standard alphabet in 3-byte groups with `=` padding;
the decoder skips bytes outside the alphabet, stops once padding completes a
quad, and raises `binascii.Error` on a dangling quad position. -/

def b64alphabet : List Char :=
  "ABCDEFGHIJKLMNOPQRSTUVWXYZabcdefghijklmnopqrstuvwxyz0123456789+/".toList

/-- The byte emitted for a 6-bit group. -/
def b64char (v : Nat) : Char := b64alphabet.getD v 'A'

/-- The decoding table `table_a2b_base64`, on a byte value: index of the
byte in the alphabet, `none` for a byte outside it. -/
def b64tableB (byteV : Nat) : Option Nat :=
  b64alphabet.findIdx? (fun c => c.toNat = byteV)

/-- Encoder `binascii.b2a_base64` (sans trailing newline): three input bytes
become four alphabet bytes; a final group of one or two bytes is padded with
`=`.  The produced bytes are returned as their characters. -/
def b2a_base64 : List Nat → List Char
  | [] => []
  | [a] => [b64char (a / 4), b64char (a % 4 * 16), '=', '=']
  | [a, b2] =>
      [b64char (a / 4), b64char (a % 4 * 16 + b2 / 16), b64char (b2 % 16 * 4), '=']
  | a :: b2 :: c :: rest =>
      b64char (a / 4) :: b64char (a % 4 * 16 + b2 / 16) ::
        b64char (b2 % 16 * 4 + c / 64) :: b64char (c % 64) :: b2a_base64 rest

/-- Decoder loop of `binascii.a2b_base64` in non-strict mode, over the input
bytes with state (`quadPos`, `leftchar`, `pads`, output accumulator).  A pad
byte (61, `=`) finishes decoding once the current quad holds at least two
data characters and data plus pads reach four; other bytes outside the
alphabet are skipped; at end of input a dangling quad position raises
`binascii.Error`. -/
def a2b_base64 : List Nat → Nat → Nat → Nat → List Nat → Except String (List Nat)
  | [], quadPos, _, _, acc =>
      if quadPos = 0 then .ok acc.reverse
      else if quadPos = 1 then
        .error "binascii.Error: Invalid base64-encoded string: number of data characters cannot be 1 more than a multiple of 4"
      else .error "binascii.Error: Incorrect padding"
  | byteV :: rest, quadPos, leftchar, pads, acc =>
      if byteV = 61 then
        if 2 ≤ quadPos then
          if 4 ≤ quadPos + (pads + 1) then .ok acc.reverse
          else a2b_base64 rest quadPos leftchar (pads + 1) acc
        else a2b_base64 rest quadPos leftchar pads acc
      else
        match b64tableB byteV with
        | none => a2b_base64 rest quadPos leftchar pads acc
        | some v =>
          match quadPos with
          | 0 => a2b_base64 rest 1 v 0 acc
          | 1 => a2b_base64 rest 2 (v % 16) 0 ((leftchar * 4 + v / 16) :: acc)
          | 2 => a2b_base64 rest 3 (v % 4) 0 ((leftchar * 16 + v / 4) :: acc)
          | _ => a2b_base64 rest 0 0 0 ((leftchar * 64 + v) :: acc)

/-- compat.py `b64encode`: encode the bytes, then decode the result as
ASCII (which raises `UnicodeDecodeError` on a byte ≥ 128). -/
def b64encode (x : List Nat) : Except String String :=
  let enc := b2a_base64 x
  if enc.all (fun c => c.toNat < 128) then .ok (String.mk enc)
  else .error "UnicodeDecodeError: ascii codec cannot decode byte"

/-- compat.py `b64decode`: encode the string as ASCII (which raises
`UnicodeEncodeError` on a code point ≥ 128), then run the base64 decoder. -/
def b64decode (x : String) : Except String (List Nat) :=
  if x.toList.all (fun c => c.toNat < 128) then
    a2b_base64 (x.toList.map Char.toNat) 0 0 0 []
  else .error "UnicodeEncodeError: ascii codec cannot encode character"

/-! ## Latin-1 encoding: `b` (compat.py lines 118-119) -/

/-- The `latin-1` codec on a list of code points: each code point at most
255 becomes the byte of the same value; a larger code point raises
`UnicodeEncodeError`. -/
def latin1_encode : List Char → Except String (List Nat)
  | [] => .ok []
  | c :: rest =>
      if c.toNat ≤ 255 then (latin1_encode rest).map (fun bs => c.toNat :: bs)
      else .error ("UnicodeEncodeError: latin-1 codec cannot encode character " ++
        reprStr (String.mk [c]))

/-- compat.py `b`: `s.encode("latin-1")`. -/
def b (s : String) : Except String (List Nat) := latin1_encode s.toList

/-! ### Base64 lemmas -/

/-- Alphabet facts for the 64 valid 6-bit groups: the decoding table inverts
the encoder, and no alphabet byte is the pad byte 61. -/
theorem b64_facts : ∀ v < 64,
    b64tableB (b64char v).toNat = some v ∧ (b64char v).toNat ≠ 61 := by decide

/-- Every byte the encoder emits is ASCII. -/
theorem b64char_lt (v : Nat) : (b64char v).toNat < 128 := by
  by_cases h : v < 64
  · exact (by decide : ∀ v < 64, (b64char v).toNat < 128) v h
  · have hlen : b64alphabet.length ≤ v := by
      have h64 : b64alphabet.length = 64 := by decide
      omega
    rw [b64char, List.getD_eq_default _ _ hlen]
    decide

/-- Decoding steps through one full quad of alphabet bytes, emitting the
three bytes packed from the four 6-bit groups. -/
theorem a2b_quad (v1 v2 v3 v4 : Nat) (h1 : v1 < 64) (h2 : v2 < 64) (h3 : v3 < 64)
    (h4 : v4 < 64) (bs acc : List Nat) :
    a2b_base64 ((b64char v1).toNat :: (b64char v2).toNat :: (b64char v3).toNat ::
        (b64char v4).toNat :: bs) 0 0 0 acc =
      a2b_base64 bs 0 0 0
        ((v3 % 4 * 64 + v4) :: (v2 % 16 * 16 + v3 / 4) :: (v1 * 4 + v2 / 16) :: acc) := by
  obtain ⟨t1, ne1⟩ := b64_facts v1 h1
  obtain ⟨t2, ne2⟩ := b64_facts v2 h2
  obtain ⟨t3, ne3⟩ := b64_facts v3 h3
  obtain ⟨t4, ne4⟩ := b64_facts v4 h4
  simp [a2b_base64, t1, t2, t3, t4, ne1, ne2, ne3, ne4]

/-- Decoding the encoder's output consumes it entirely and reproduces the
input bytes behind any already-accumulated output. -/
theorem a2b_b2a : ∀ (x : List Nat), (∀ v ∈ x, v < 256) → ∀ (acc : List Nat),
    a2b_base64 ((b2a_base64 x).map Char.toNat) 0 0 0 acc = .ok (acc.reverse ++ x)
  | [], _, acc => by simp [b2a_base64, a2b_base64]
  | [a], hx, acc => by
      have ha : a < 256 := hx a (by simp)
      obtain ⟨t1, ne1⟩ := b64_facts (a / 4) (by omega)
      obtain ⟨t2, ne2⟩ := b64_facts (a % 4 * 16) (by omega)
      have e1 : a / 4 * 4 + a % 4 * 16 / 16 = a := by omega
      have e2 : a % 4 * 16 % 16 = 0 := by omega
      simp [b2a_base64, a2b_base64, t1, t2, ne1, ne2, e1, e2]
      omega
  | [a, b2], hx, acc => by
      have ha : a < 256 := hx a (by simp)
      have hb : b2 < 256 := hx b2 (by simp)
      obtain ⟨t1, ne1⟩ := b64_facts (a / 4) (by omega)
      obtain ⟨t2, ne2⟩ := b64_facts (a % 4 * 16 + b2 / 16) (by omega)
      obtain ⟨t3, ne3⟩ := b64_facts (b2 % 16 * 4) (by omega)
      have e1 : a / 4 * 4 + (a % 4 * 16 + b2 / 16) / 16 = a := by omega
      have e2 : (a % 4 * 16 + b2 / 16) % 16 * 16 + b2 % 16 * 4 / 4 = b2 := by omega
      simp [b2a_base64, a2b_base64, t1, t2, t3, ne1, ne2, ne3, e1, e2]
      omega
  | a :: b2 :: c :: rest, hx, acc => by
      have ha : a < 256 := hx a (by simp)
      have hb : b2 < 256 := hx b2 (by simp)
      have hc : c < 256 := hx c (by simp)
      have hrest : ∀ v ∈ rest, v < 256 := fun v hv => hx v (by simp [hv])
      have step := a2b_quad (a / 4) (a % 4 * 16 + b2 / 16) (b2 % 16 * 4 + c / 64)
        (c % 64) (by omega) (by omega) (by omega) (by omega)
        ((b2a_base64 rest).map Char.toNat) acc
      have e1 : a / 4 * 4 + (a % 4 * 16 + b2 / 16) / 16 = a := by omega
      have e2 : (a % 4 * 16 + b2 / 16) % 16 * 16 + (b2 % 16 * 4 + c / 64) / 4 = b2 := by
        omega
      have e3 : (b2 % 16 * 4 + c / 64) % 4 * 64 + c % 64 = c := by omega
      rw [e1, e2, e3] at step
      have ih := a2b_b2a rest hrest (c :: b2 :: a :: acc)
      simp only [b2a_base64, List.map]
      rw [step, ih]
      simp

/-- Every character of the encoder's output is ASCII. -/
theorem b2a_mem_lt : ∀ (x : List Nat), ∀ c ∈ b2a_base64 x, c.toNat < 128
  | [], c, hc => by simp [b2a_base64] at hc
  | [a], c, hc => by
      simp only [b2a_base64, List.mem_cons, List.not_mem_nil, or_false] at hc
      rcases hc with rfl | rfl | rfl | rfl
      · exact b64char_lt _
      · exact b64char_lt _
      · decide
      · decide
  | [a, b2], c, hc => by
      simp only [b2a_base64, List.mem_cons, List.not_mem_nil, or_false] at hc
      rcases hc with rfl | rfl | rfl | rfl
      · exact b64char_lt _
      · exact b64char_lt _
      · exact b64char_lt _
      · decide
  | a :: b2 :: c0 :: rest, c, hc => by
      simp only [b2a_base64, List.mem_cons] at hc
      rcases hc with rfl | rfl | rfl | rfl | hmem
      · exact b64char_lt _
      · exact b64char_lt _
      · exact b64char_lt _
      · exact b64char_lt _
      · exact b2a_mem_lt rest c hmem

/-- Round trip, in the shape shared by the totality and the round-trip
results: encoding any byte sequence succeeds (its output is ASCII) and
decoding that exact string succeeds with the original bytes. -/
theorem b64_roundtrip_core (x : List Nat) (hx : ∀ v ∈ x, v < 256) :
    b64encode x = .ok (String.mk (b2a_base64 x)) ∧
      b64decode (String.mk (b2a_base64 x)) = .ok x := by
  have hall : ((b2a_base64 x).all fun c => decide (c.toNat < 128)) = true := by
    rw [List.all_eq_true]
    intro c hc
    exact decide_eq_true (b2a_mem_lt x c hc)
  have htl : (String.mk (b2a_base64 x)).toList = b2a_base64 x := rfl
  constructor
  · rw [b64encode]
    simp only [hall, if_true]
  · rw [b64decode, htl, if_pos hall]
    exact a2b_b2a x hx []

/-- C3: for every byte sequence `x`, encoding succeeds and decoding the
encoded string yields exactly the original bytes:
`b64decode(b64encode(x)) == x`. -/
theorem b64_roundtrip (x : List Nat) (hx : ∀ v ∈ x, v < 256) :
    ∃ s : String, b64encode x = .ok s ∧ b64decode s = .ok x :=
  ⟨String.mk (b2a_base64 x), b64_roundtrip_core x hx⟩

/-- Witness for `b64_roundtrip` at the concrete byte sequence `[0, 255, 100]`. -/
theorem b64_roundtrip_witness :
    ∃ s : String, b64encode [0, 255, 100] = .ok s ∧ b64decode s = .ok [0, 255, 100] :=
  b64_roundtrip [0, 255, 100] (by decide)

/-- C9 (amended): `b64encode` never fails on any byte sequence, and
`b64decode` never fails on any string produced by `b64encode`; but
`b64decode` is not total on arbitrary strings (see the counterexample). -/
theorem b64_totality (x : List Nat) (hx : ∀ v ∈ x, v < 256) :
    (b64encode x).isOk = true ∧
      ∀ s : String, b64encode x = .ok s → (b64decode s).isOk = true := by
  obtain ⟨he, hd⟩ := b64_roundtrip_core x hx
  refine ⟨by rw [he]; rfl, fun s hs => ?_⟩
  rw [he] at hs
  cases hs
  rw [hd]
  rfl

/-- Witness for `b64_totality` at the concrete byte sequence `[77, 97, 110]`. -/
theorem b64_totality_witness :
    (b64encode [77, 97, 110]).isOk = true ∧
      ∀ s : String, b64encode [77, 97, 110] = .ok s →
        (b64decode s).isOk = true :=
  b64_totality [77, 97, 110] (by decide)

/-- C9 counterexample: `b64decode` does fail on the one-character string
`"a"` (one data character is one more than a multiple of four), so the
claim that `b64decode` never fails for any string input is false. -/
theorem b64decode_not_total : (b64decode "a").isOk = false := by decide

/-! ### Latin-1 lemmas -/

/-- The latin-1 codec succeeds on code points up to 255, yielding the code
point of each character as a byte. -/
theorem latin1_encode_ok : ∀ (cs : List Char), (∀ c ∈ cs, c.toNat ≤ 255) →
    latin1_encode cs = .ok (cs.map Char.toNat)
  | [], _ => rfl
  | c :: rest, h => by
      have hc : c.toNat ≤ 255 := h c (by simp)
      have ih := latin1_encode_ok rest (fun d hd => h d (by simp [hd]))
      simp [latin1_encode, hc, ih, Except.map]

/-- The latin-1 codec fails as soon as some code point exceeds 255. -/
theorem latin1_encode_err : ∀ (cs : List Char), (∃ c ∈ cs, 255 < c.toNat) →
    (latin1_encode cs).isOk = false
  | [], h => by simp at h
  | c :: rest, h => by
      by_cases hc : c.toNat ≤ 255
      · have hrest : ∃ d ∈ rest, 255 < d.toNat := by
          rcases h with ⟨d, hd, hgt⟩
          rcases List.mem_cons.mp hd with rfl | hm
          · omega
          · exact ⟨d, hm, hgt⟩
        have ih := latin1_encode_err rest hrest
        simp only [latin1_encode, if_pos hc]
        cases he : latin1_encode rest with
        | ok v => rw [he] at ih; simp [Except.isOk, Except.toBool] at ih
        | error e => rfl
      · simp only [latin1_encode, if_neg hc]
        rfl

/-- C7: `b(s)` raises `UnicodeEncodeError` exactly when `s` contains a code
point above 255; on a string of code points at most 255 it returns the byte
sequence mapping each character to its code point. -/
theorem b_latin1_spec (s : String) :
    ((∃ c ∈ s.toList, 255 < c.toNat) ↔ (Compat.b s).isOk = false) ∧
      ((∀ c ∈ s.toList, c.toNat ≤ 255) →
        Compat.b s = .ok (s.toList.map Char.toNat)) := by
  refine ⟨⟨fun h => latin1_encode_err _ h, fun h => ?_⟩,
    fun h => latin1_encode_ok _ h⟩
  by_contra hex
  push_neg at hex
  have hok := latin1_encode_ok s.toList (fun c hc => by have := hex c hc; omega)
  rw [show Compat.b s = latin1_encode s.toList from rfl, hok] at h
  simp [Except.isOk, Except.toBool] at h

/-- Witness for `b_latin1_spec`: the two-character ASCII string `"ab"`
encodes to its two code points. -/
theorem b_latin1_witness : Compat.b "ab" = .ok [97, 98] :=
  (b_latin1_spec "ab").2 (by decide)

/-! ## `decode_backslashreplace` (compat.py lines 130-131)

`decode_backslashreplace(text, encoding)` is
`text.decode(encoding, errors="backslashreplace")`.  The codec machinery it
delegates to lives in the Python runtime, not in this repository, so it is
modelled here: a strict decoder is a function from the remaining bytes to an
optional decoded character together with the count of extra bytes consumed,
and the error-handler loop consults the handler on each undecodable byte.
The `backslashreplace` handler substitutes `\xHH` for the offending byte and
never fails; the `strict` handler raises `UnicodeDecodeError`. -/

/-- Modelled from the spec: a strict single-step text decoder, as used by
the runtime's decoding loop.  `some (c, n)` decodes the character `c` from
the first `n + 1` bytes of the input; `none` reports an undecodable byte. -/
def Decoder := List Nat → Option (Char × Nat)

/-- Modelled from the spec: the runtime decode loop with a pluggable error
handler, which receives each undecodable byte. -/
def decode_with_handler (D : Decoder) (handler : Nat → Except String String) :
    List Nat → Except String String
  | [] => .ok ""
  | byteV :: rest =>
      match D (byteV :: rest) with
      | some (c, n) =>
          (decode_with_handler D handler (rest.drop n)).map
            (fun s => String.mk [c] ++ s)
      | none => do
          let rep ← handler byteV
          let s ← decode_with_handler D handler rest
          pure (rep ++ s)
  termination_by bs => bs.length
  decreasing_by
  · simp only [List.length_cons, List.length_drop]
    omega
  · simp only [List.length_cons]
    omega

/-- The `strict` error handler: raise `UnicodeDecodeError`. -/
def strict_handler (byteV : Nat) : Except String String :=
  .error ("UnicodeDecodeError: cannot decode byte " ++ toString byteV)

def hexDigitChar (n : Nat) : Char := "0123456789abcdef".toList.getD n '0'

/-- The `backslashreplace` error handler: substitute `\xHH` for the
undecodable byte. -/
def backslashreplace_handler (byteV : Nat) : Except String String :=
  .ok (String.mk ['\\', 'x', hexDigitChar (byteV / 16 % 16), hexDigitChar (byteV % 16)])

/-- Modelled from the spec: the strict utf-8 decoder step (RFC 3629:
continuation bytes, and no overlong, surrogate or out-of-range sequences). -/
def utf8Decoder : Decoder := fun bs =>
  match bs with
  | [] => none
  | b0 :: rest =>
      if b0 < 128 then some (Char.ofNat b0, 0)
      else if 194 ≤ b0 ∧ b0 ≤ 223 then
        match rest with
        | b1 :: _ =>
            if 128 ≤ b1 ∧ b1 < 192 then
              some (Char.ofNat ((b0 - 192) * 64 + (b1 - 128)), 1)
            else none
        | [] => none
      else if 224 ≤ b0 ∧ b0 ≤ 239 then
        match rest with
        | b1 :: b2 :: _ =>
            if (128 ≤ b1 ∧ b1 < 192) ∧ (128 ≤ b2 ∧ b2 < 192) then
              let cp := (b0 - 224) * 4096 + (b1 - 128) * 64 + (b2 - 128)
              if 2048 ≤ cp ∧ ¬ (55296 ≤ cp ∧ cp ≤ 57343) then some (Char.ofNat cp, 2)
              else none
            else none
        | _ => none
      else if 240 ≤ b0 ∧ b0 ≤ 244 then
        match rest with
        | b1 :: b2 :: b3 :: _ =>
            if (128 ≤ b1 ∧ b1 < 192) ∧ (128 ≤ b2 ∧ b2 < 192) ∧ (128 ≤ b3 ∧ b3 < 192) then
              let cp := (b0 - 240) * 262144 + (b1 - 128) * 4096 +
                (b2 - 128) * 64 + (b3 - 128)
              if 65536 ≤ cp ∧ cp ≤ 1114111 then some (Char.ofNat cp, 3)
              else none
            else none
        | _ => none
      else none

/-- Modelled from the spec: the codec registry lookup; the utf-8 codec named
by the claims is modelled, an unknown encoding name raises `LookupError`. -/
def codecDecoder (encoding : String) : Option Decoder :=
  if encoding = "utf-8" ∨ encoding = "utf8" then some utf8Decoder else none

/-- compat.py `decode_backslashreplace`:
`text.decode(encoding, errors="backslashreplace")`. -/
def decode_backslashreplace (text : List Nat) (encoding : String) :
    Except String String :=
  match codecDecoder encoding with
  | some D => decode_with_handler D backslashreplace_handler text
  | none => .error ("LookupError: unknown encoding: " ++ encoding)

/-- The decode loop with the `backslashreplace` handler never fails,
whatever the strict decoder does. -/
theorem decode_with_backslashreplace_ok (D : Decoder) :
    ∀ (text : List Nat),
      (decode_with_handler D backslashreplace_handler text).isOk = true
  | [] => by rw [decode_with_handler]; rfl
  | byteV :: rest => by
      rw [decode_with_handler]
      cases hD : D (byteV :: rest) with
      | some p =>
          obtain ⟨c, n⟩ := p
          have ih := decode_with_backslashreplace_ok D (rest.drop n)
          cases he : decode_with_handler D backslashreplace_handler (rest.drop n) with
          | ok s => simp [hD, he, Except.map, Except.isOk, Except.toBool]
          | error e => rw [he] at ih; simp [Except.isOk, Except.toBool] at ih
      | none =>
          have ih := decode_with_backslashreplace_ok D rest
          cases he : decode_with_handler D backslashreplace_handler rest with
          | ok s =>
              simp only [hD, he, backslashreplace_handler]
              rfl
          | error e => rw [he] at ih; simp [Except.isOk, Except.toBool] at ih
  termination_by text => text.length
  decreasing_by
  all_goals simp only [List.length_cons, List.length_drop]
  all_goals omega

/-- C8: with the `backslashreplace` handler the decode loop returns a string
for every byte sequence and every strict decoder, never raising; and on the
concrete invalid byte `0xff` under utf-8 the result is the escaped
representation `"\xff"`. -/
theorem decode_backslashreplace_total :
    (∀ (D : Decoder) (text : List Nat),
        (decode_with_handler D backslashreplace_handler text).isOk = true) ∧
      decode_backslashreplace [255] "utf-8" = .ok "\\xff" := by
  refine ⟨fun D text => decode_with_backslashreplace_ok D text, ?_⟩
  have h1 : codecDecoder "utf-8" = some utf8Decoder := by
    rw [codecDecoder]
    simp
  have h2 : utf8Decoder [255] = none := by decide
  simp only [decode_backslashreplace, h1, decode_with_handler, h2]
  rfl

/-! ## `dict_union` (compat.py lines 99-107)

The module embeds the pre-3.9 definition `a = a.copy(); a.update(b);
return a` (on 3.9+ the module binds PEP 584 `operator.or_`, whose semantics
on dicts is the same copy-then-update).  A dict is an association list whose
keys are unique; `dictSet` is one `d[k] = v` store (replace the binding in
place if the key is present, else append, as a Python dict does), and
`dict.update(b)` stores every binding of `b` in order. -/

def dictSet {K V : Type} [DecidableEq K] (d : List (K × V)) (k : K) (v : V) :
    List (K × V) :=
  if d.any (fun p => p.1 = k) then
    d.map (fun p => if p.1 = k then (k, v) else p)
  else d ++ [(k, v)]

/-- `a.update(b)`: store each binding of `b` into `a`, in order. -/
def dict_update {K V : Type} [DecidableEq K] (a b2 : List (K × V)) :
    List (K × V) :=
  b2.foldl (fun acc p => dictSet acc p.1 p.2) a

/-- compat.py `dict_union`: `a = a.copy(); a.update(b); return a`.  The copy
is the identity in this pure embedding (the inputs are left untouched by
construction). -/
def dict_union {K V : Type} [DecidableEq K] (a b2 : List (K × V)) :
    List (K × V) :=
  dict_update a b2

/-- After the in-place replacement pass, looking up the stored key finds
the stored value exactly when the key was present. -/
theorem alookup_map_set_eq {K V : Type} [DecidableEq K] (k : K) (v : V) :
    ∀ (d : List (K × V)),
      alookup k (d.map (fun p => if p.1 = k then (k, v) else p)) =
        if d.any (fun p => p.1 = k) then some v else none
  | [] => by simp [alookup]
  | q :: rest => by
      obtain ⟨qk, qv⟩ := q
      by_cases hq : qk = k
      · rw [List.map_cons,
          show (if (qk, qv).1 = k then (k, v) else (qk, qv)) = (k, v) from if_pos hq]
        simp [alookup, hq]
      · rw [List.map_cons,
          show (if (qk, qv).1 = k then (k, v) else (qk, qv)) = (qk, qv) from if_neg hq]
        simp only [alookup, if_neg hq]
        rw [alookup_map_set_eq k v rest]
        rw [List.any_cons]
        rw [decide_eq_false hq, Bool.false_or]

/-- The in-place replacement pass for key `k` does not change lookups of any
other key. -/
theorem alookup_map_set_ne {K V : Type} [DecidableEq K] (k k' : K) (v : V)
    (hkk : ¬ k = k') :
    ∀ (d : List (K × V)),
      alookup k' (d.map (fun p => if p.1 = k then (k, v) else p)) = alookup k' d
  | [] => rfl
  | q :: rest => by
      obtain ⟨qk, qv⟩ := q
      by_cases hq : qk = k
      · have hq' : ¬ qk = k' := fun h => hkk (by rw [← hq, h])
        rw [List.map_cons,
          show (if (qk, qv).1 = k then (k, v) else (qk, qv)) = (k, v) from if_pos hq]
        simp only [alookup, if_neg hkk, if_neg hq']
        exact alookup_map_set_ne k k' v hkk rest
      · rw [List.map_cons,
          show (if (qk, qv).1 = k then (k, v) else (qk, qv)) = (qk, qv) from if_neg hq]
        simp only [alookup]
        by_cases hqk' : qk = k'
        · simp [hqk']
        · simp only [if_neg hqk']
          exact alookup_map_set_ne k k' v hkk rest

/-- Lookup in a list extended by one binding at the end. -/
theorem alookup_append_single {K V : Type} [DecidableEq K] (k k' : K) (v : V) :
    ∀ (d : List (K × V)),
      alookup k' (d ++ [(k, v)]) =
        match alookup k' d with
        | some w => some w
        | none => if k = k' then some v else none
  | [] => by simp [alookup]
  | q :: rest => by
      obtain ⟨qk, qv⟩ := q
      by_cases hqk' : qk = k'
      · simp [alookup, hqk']
      · simp only [List.cons_append, alookup, if_neg hqk']
        exact alookup_append_single k k' v rest

/-- A key absent from the list looks up to `none`. -/
theorem alookup_eq_none {K V : Type} [DecidableEq K] (k : K) :
    ∀ (d : List (K × V)), d.any (fun p => p.1 = k) = false → alookup k d = none
  | [], _ => rfl
  | q :: rest, h => by
      obtain ⟨qk, qv⟩ := q
      simp only [List.any_cons, Bool.or_eq_false_iff, decide_eq_false_iff_not] at h
      obtain ⟨h1, h2⟩ := h
      simp only [alookup, if_neg h1]
      exact alookup_eq_none k rest (by simpa using h2)

/-- Lookup after a single store: the stored key now maps to the stored
value, every other key is unaffected. -/
theorem alookup_dictSet {K V : Type} [DecidableEq K] (d : List (K × V))
    (k k' : K) (v : V) :
    alookup k' (dictSet d k v) = if k = k' then some v else alookup k' d := by
  rw [dictSet]
  by_cases hmem : d.any (fun p => p.1 = k)
  · rw [if_pos hmem]
    by_cases hkk : k = k'
    · subst hkk
      rw [alookup_map_set_eq k v d, if_pos hmem, if_pos rfl]
    · rw [alookup_map_set_ne k k' v hkk d, if_neg hkk]
  · rw [if_neg hmem]
    rw [alookup_append_single k k' v d]
    have hmem' : d.any (fun p => p.1 = k) = false := by
      rwa [Bool.not_eq_true] at hmem
    by_cases hkk : k = k'
    · subst hkk
      rw [alookup_eq_none k d hmem']
    · cases h : alookup k' d with
      | none => simp [hkk]
      | some w => simp [hkk]

/-- Lookup after `a.update(b)`: a key bound in `b` has `b`'s value, any
other key keeps its binding from `a`. -/
theorem alookup_dict_update {K V : Type} [DecidableEq K] :
    ∀ (b2 a : List (K × V)), (b2.map Prod.fst).Nodup → ∀ (k : K),
      alookup k (dict_update a b2) =
        match alookup k b2 with
        | some v => some v
        | none => alookup k a
  | [], a, _, k => by simp [dict_update, alookup]
  | p :: rest, a, hnd, k => by
      obtain ⟨pk, pv⟩ := p
      rw [List.map_cons] at hnd
      obtain ⟨hp, hrest⟩ := List.nodup_cons.mp hnd
      have hfold : dict_update a ((pk, pv) :: rest) =
          dict_update (dictSet a pk pv) rest := rfl
      rw [hfold, alookup_dict_update rest _ hrest k]
      by_cases hpk : pk = k
      · have hrn : alookup k rest = none := by
          apply alookup_eq_none
          rw [List.any_eq_false]
          intro p' hp'
          simp only [decide_eq_true_iff]
          intro hk'
          apply hp
          rw [hpk, ← hk']
          exact List.mem_map.mpr ⟨p', hp', rfl⟩
        rw [hrn]
        simp only [alookup, if_pos hpk]
        rw [alookup_dictSet, if_pos hpk]
      · simp only [alookup, if_neg hpk]
        cases h : alookup k rest with
        | some v => rfl
        | none => rw [alookup_dictSet, if_neg hpk]

/-- C4: `dict_union(m1, m2)` maps every key bound in `m2` to `m2`'s value,
every key bound only in `m1` to `m1`'s value, and binds exactly the union of
the two key sets (the inputs themselves are untouched: the embedding is
pure, matching the `copy`-then-`update` of the source). -/
theorem dict_union_spec {K V : Type} [DecidableEq K] (m1 m2 : List (K × V))
    (hnd : (m2.map Prod.fst).Nodup) :
    (∀ k : K, alookup k (dict_union m1 m2) =
        match alookup k m2 with
        | some v => some v
        | none => alookup k m1) ∧
      (∀ k : K, (alookup k (dict_union m1 m2)).isSome = true ↔
        ((alookup k m1).isSome = true ∨ (alookup k m2).isSome = true)) := by
  have hmain : ∀ k : K, alookup k (dict_union m1 m2) =
      match alookup k m2 with
      | some v => some v
      | none => alookup k m1 :=
    alookup_dict_update m2 m1 hnd
  refine ⟨hmain, fun k => ?_⟩
  rw [hmain k]
  cases h2 : alookup k m2 with
  | some v => simp
  | none => cases h1 : alookup k m1 <;> simp

/-- Witness for `dict_union_spec` on concrete dicts with an overlapping
key: the second dict wins on key 2, key 1 survives from the first, key 3
from the second. -/
theorem dict_union_witness :
    alookup 2 (dict_union [(1, 10), (2, 20)] [(2, 99), (3, 30)]) = some 99 ∧
      alookup 1 (dict_union [(1, 10), (2, 20)] [(2, 99), (3, 30)]) = some 10 ∧
      alookup 3 (dict_union [(1, 10), (2, 20)] [(2, 99), (3, 30)]) = some 30 ∧
      alookup 4 (dict_union [(1, 10), (2, 20)] [(2, 99), (3, 30)]) = (none : Option Nat) := by
  have h := (dict_union_spec [(1, 10), (2, 20)] [(2, 99), (3, 30)] (by decide)).1
  refine ⟨?_, ?_, ?_, ?_⟩
  · rw [h 2]; rfl
  · rw [h 1]; rfl
  · rw [h 3]; rfl
  · rw [h 4]; rfl

/-! ## Dataclass field introspection (compat.py lines 227-247)

`dataclass_fields` returns `dataclasses.fields(cls)` when
`dataclasses.is_dataclass(cls)` and `[]` otherwise; `local_dataclass_fields`
additionally subtracts the fields of every direct base.  The dataclasses
runtime machinery is modelled: a class carries its `__dataclass_fields__`
attribute (present exactly on dataclasses) and its `__bases__`; the
`@dataclass` decorator builds `__dataclass_fields__` from the bases' field
dicts (reversed method-resolution order) followed by the newly declared
fields, keyed by field name, sharing inherited `Field` objects with the
base. -/

/-- A `dataclasses.Field` record: name, declared type, default. -/
structure Field where
  name : String
  typ : String
  default : Option PyVal
deriving DecidableEq

/-- A Python class as the dataclasses module sees it: the optional
`__dataclass_fields__` attribute and the direct bases `__bases__`. -/
inductive PyClass where
  | mk (fieldsDict : Option (List Field)) (bases : List PyClass)

def PyClass.bases : PyClass → List PyClass
  | .mk _ bs => bs

/-- `dataclasses.is_dataclass`: the class carries `__dataclass_fields__`. -/
def is_dataclass : PyClass → Bool
  | .mk (some _) _ => true
  | .mk none _ => false

/-- `dataclasses.fields`: the stored field list (the source only calls it
under an `is_dataclass` guard; `[]` stands for the unreachable branch). -/
def dc_fields : PyClass → List Field
  | .mk (some fs) _ => fs
  | .mk none _ => []

/-- One store into the ordered field dict kept by the `@dataclass`
decorator: replace in place on a name collision, else append. -/
def fieldStore (d : List Field) (f : Field) : List Field :=
  if d.any (fun g => g.name = f.name) then
    d.map (fun g => if g.name = f.name then f else g)
  else d ++ [f]

/-- Modelled from the runtime `@dataclass` decorator: collect the bases'
fields in reversed method-resolution order, then the newly declared fields,
into a name-keyed ordered dict.  Inherited `Field` values are shared with
the base, as in the runtime. -/
def mk_dataclass (bases : List PyClass) (declared : List Field) : PyClass :=
  .mk (some (((bases.reverse.map dc_fields).flatten ++ declared).foldl fieldStore []))
    bases

/-- compat.py `dataclass_fields`: all `Field` objects of a class, or `[]`
when the class is not a dataclass. -/
def dataclass_fields (cls : PyClass) : List Field :=
  if is_dataclass cls then dc_fields cls else []

/-- compat.py `local_dataclass_fields`: all `Field` objects of a class
excluding those originating from a direct base, or `[]` when the class is
not a dataclass. -/
def local_dataclass_fields (cls : PyClass) : List Field :=
  if is_dataclass cls then
    let super_fields := (cls.bases.map dataclass_fields).flatten
    (dc_fields cls).filter (fun f => !(super_fields.contains f))
  else []

/-- Storing a fresh name appends the field. -/
theorem fieldStore_append (d : List Field) (f : Field)
    (h : d.any (fun g => g.name = f.name) = false) : fieldStore d f = d ++ [f] := by
  rw [fieldStore, h]
  simp

/-- C5: on a dataclass subclass adding one fresh field `f3` to a two-field
dataclass base, `local_dataclass_fields` returns exactly the new field while
`dataclass_fields` returns all three; and on a non-dataclass both return
`[]`. -/
theorem local_dataclass_fields_spec (f1 f2 f3 : Field)
    (h12 : f1.name ≠ f2.name) (h13 : f1.name ≠ f3.name) (h23 : f2.name ≠ f3.name) :
    local_dataclass_fields (mk_dataclass [mk_dataclass [] [f1, f2]] [f3]) = [f3] ∧
      dataclass_fields (mk_dataclass [mk_dataclass [] [f1, f2]] [f3]) = [f1, f2, f3] ∧
      ∀ bases : List PyClass,
        dataclass_fields (PyClass.mk none bases) = [] ∧
          local_dataclass_fields (PyClass.mk none bases) = [] := by
  have s1 : fieldStore [] f1 = [f1] := fieldStore_append [] f1 rfl
  have any2 : [f1].any (fun g => g.name = f2.name) = false := by
    simp only [List.any_cons, List.any_nil, Bool.or_false]
    exact decide_eq_false (fun h => h12 h)
  have s2 : fieldStore [f1] f2 = [f1, f2] := fieldStore_append [f1] f2 any2
  have any3 : [f1, f2].any (fun g => g.name = f3.name) = false := by
    simp only [List.any_cons, List.any_nil, Bool.or_false, Bool.or_eq_false_iff]
    exact ⟨decide_eq_false (fun h => h13 h), decide_eq_false (fun h => h23 h)⟩
  have s3 : fieldStore [f1, f2] f3 = [f1, f2, f3] := fieldStore_append [f1, f2] f3 any3
  have hbase : mk_dataclass [] [f1, f2] = PyClass.mk (some [f1, f2]) [] := by
    rw [mk_dataclass]
    simp only [List.reverse_nil, List.map_nil, List.flatten_nil, List.nil_append,
      List.foldl_cons, List.foldl_nil, s1, s2]
  have hsub : mk_dataclass [mk_dataclass [] [f1, f2]] [f3] =
      PyClass.mk (some [f1, f2, f3]) [PyClass.mk (some [f1, f2]) []] := by
    rw [mk_dataclass, hbase]
    simp only [List.reverse_cons, List.reverse_nil, List.nil_append, List.map_cons,
      List.map_nil, dc_fields, List.flatten_cons, List.flatten_nil, List.append_nil,
      List.cons_append, List.foldl_cons, List.foldl_nil, s1, s2, s3]
  have ne31 : (f3 == f1) = false := by
    apply beq_eq_false_iff_ne.mpr
    intro h
    exact h13 (by rw [h])
  have ne32 : (f3 == f2) = false := by
    apply beq_eq_false_iff_ne.mpr
    intro h
    exact h23 (by rw [h])
  refine ⟨?_, ?_, fun bases => ⟨rfl, rfl⟩⟩
  · rw [hsub, local_dataclass_fields]
    simp only [is_dataclass, if_true, PyClass.bases, List.map_cons, List.map_nil,
      dataclass_fields, dc_fields, List.flatten_cons, List.flatten_nil, List.append_nil]
    simp only [List.filter_cons, List.filter_nil, List.contains_cons,
      List.contains_nil, beq_self_eq_true, Bool.true_or, Bool.or_true,
      Bool.or_false, Bool.not_true, ne31, ne32, Bool.false_or, Bool.not_false,
      if_true, if_false]
    simp
  · rw [hsub, dataclass_fields]
    simp only [is_dataclass, if_true, dc_fields]

/-- Witness for `local_dataclass_fields_spec` with three concrete fields. -/
theorem local_dataclass_fields_witness :
    local_dataclass_fields
        (mk_dataclass [mk_dataclass [] [⟨"x", "int", none⟩, ⟨"y", "int", none⟩]]
          [⟨"z", "str", none⟩]) = [⟨"z", "str", none⟩] ∧
      dataclass_fields
          (mk_dataclass [mk_dataclass [] [⟨"x", "int", none⟩, ⟨"y", "int", none⟩]]
            [⟨"z", "str", none⟩]) =
        [⟨"x", "int", none⟩, ⟨"y", "int", none⟩, ⟨"z", "str", none⟩] ∧
      ∀ bases : List PyClass,
        dataclass_fields (PyClass.mk none bases) = [] ∧
          local_dataclass_fields (PyClass.mk none bases) = [] :=
  local_dataclass_fields_spec ⟨"x", "int", none⟩ ⟨"y", "int", none⟩
    ⟨"z", "str", none⟩ (by decide) (by decide) (by decide)

/-! ## Signature formatting (compat.py lines 138-224)

`inspect_formatargspec` renders a decomposed signature in source-like
notation; `_formatannotation` (embedded as ` formatannot`) renders one
annotation.  The six formatting callbacks are defaulted keyword arguments in
the source; here they are explicit arguments and the defaults are the
`*_default` definitions below, each the source's default lambda. -/

/-- compat.py `_formatannotation`: a string annotation passes through; a
typing-module object renders as its repr with the `typing.` prefix and
variance markers stripped; a class renders as the repr of its qualified name
when its module is `builtins` or the given base module, else as
`module.qualname`; anything else (type variables included — both branches of
the source have the same body) falls back to its repr with variance markers
stripped. -/
def formatannot (ann : PyVal) (base_module : Option String) : String :=
  match ann with
  | .str s => s
  | _ =>
      if pyModule ann = some "typing" then
        ((reprV ann).replace "typing." "").replace "~" ""
      else
        match ann with
        | .type m q =>
            if m = "builtins" ∨ some m = base_module then reprStr q
            else m ++ "." ++ q
        | _ => (reprV ann).replace "~" ""

/-- Default `formatarg`: `str`. -/
def formatarg_default : String → String := fun s => s

/-- Default `formatvarargs`: `lambda name: "*" + name`. -/
def formatvarargs_default : String → String := fun name => "*" ++ name

/-- Default `formatvarkw`: `lambda name: "**" + name`. -/
def formatvarkw_default : String → String := fun name => "**" ++ name

/-- Default `formatvalue`: `lambda value: "=" + repr(value)`. -/
def formatvalue_default : PyVal → String := fun value => "=" ++ reprV value

/-- Default `formatreturns`: `lambda text: " -> " + str(text)` (applied to
the already-formatted annotation, a string, so `str` is the identity). -/
def formatreturns_default : String → String := fun text => " -> " ++ text

/-- Default annotation formatter: `_formatannotation` with its default
`base_module=None`. -/
def formatannot_default : PyVal → String := fun ann => formatannot ann none

/-- compat.py `inspect_formatargspec` (vendored Python 3.7 `formatargspec`):
positional arguments with the trailing `len(defaults)` of them carrying
defaults, then `*args` (or a bare `*` if only keyword-only arguments
follow), the keyword-only arguments with their defaults, `**kwargs`, and a
return-annotation clause.  Indexing `defaults[i - firstdefault]` is total in
the source only for well-formed inputs; the embedding reads out of range as
a dummy value where Python would raise. -/
def inspect_formatargspec
    (args : List String) (varargs varkw : Option String)
    (defaults : Option (List PyVal)) (kwonlyargs : List String)
    (kwonlydefaults : Option (List (String × PyVal)))
    (annotations : List (String × PyVal))
    (formatarg : String → String)
    (formatvarargs : String → String)
    (formatvarkw : String → String)
    (formatvalue : PyVal → String)
    (formatreturns : String → String)
    (fmtAnnot : PyVal → String) : String :=
  let kwonlydefaults := kwonlydefaults.getD []
  let formatargandannot : String → String := fun arg =>
    let result := formatarg arg
    match alookup arg annotations with
    | some ann => result ++ ": " ++ fmtAnnot ann
    | none => result
  let ds := defaults.getD []
  let firstdefault : Int :=
    if ds ≠ [] then (args.length : Int) - ds.length else -1
  let specs : List String := args.enum.map (fun iarg =>
    let spec := formatargandannot iarg.2
    if ds ≠ [] ∧ firstdefault ≤ (iarg.1 : Int) then
      spec ++ formatvalue (ds.getD ((iarg.1 : Int) - firstdefault).toNat (.str ""))
    else spec)
  let specs := match varargs with
    | some va => specs ++ [formatvarargs (formatargandannot va)]
    | none => if kwonlyargs ≠ [] then specs ++ ["*"] else specs
  let specs := specs ++ kwonlyargs.map (fun kwonlyarg =>
    let spec := formatargandannot kwonlyarg
    if kwonlydefaults ≠ [] ∧ (alookup kwonlyarg kwonlydefaults).isSome then
      spec ++ formatvalue ((alookup kwonlyarg kwonlydefaults).getD (.str ""))
    else spec)
  let specs := match varkw with
    | some vk => specs ++ [formatvarkw (formatargandannot vk)]
    | none => specs
  let result := "(" ++ String.intercalate ", " specs ++ ")"
  match alookup "return" annotations with
  | some r => result ++ formatreturns (fmtAnnot r)
  | none => result

/-- C2 counterexample: on the decomposed signature of
`def f(a, b=1, *args, c, d=2, **kwargs) -> int` with the default callbacks,
the result is not the claimed `(a, b=1, *args, c, d=2, **kwargs) -> int`:
the source renders a builtins class annotation as the repr of its qualified
name, i.e. the quoted string `'int'`. -/
theorem inspect_formatargspec_ne_claimed :
    inspect_formatargspec ["a", "b"] (some "args") (some "kwargs")
        (some [.int 1]) ["c", "d"] (some [("d", .int 2)])
        [("return", .type "builtins" "int")]
        formatarg_default formatvarargs_default formatvarkw_default
        formatvalue_default formatreturns_default formatannot_default
      ≠ "(a, b=1, *args, c, d=2, **kwargs) -> int" := by decide

/-- C2 (amended): on that same decomposed signature the result is exactly
`(a, b=1, *args, c, d=2, **kwargs) -> 'int'`, the return annotation rendered
as the repr of the class's qualified name. -/
theorem inspect_formatargspec_renders :
    inspect_formatargspec ["a", "b"] (some "args") (some "kwargs")
        (some [.int 1]) ["c", "d"] (some [("d", .int 2)])
        [("return", .type "builtins" "int")]
        formatarg_default formatvarargs_default formatvarkw_default
        formatvalue_default formatreturns_default formatannot_default
      = "(a, b=1, *args, c, d=2, **kwargs) -> \x27int\x27" := by decide

/-! ## Signature introspection: `inspect_getfullargspec` (compat.py 45-90)

The vendored Python 3.3 `getfullargspec` reads the compiled-code attributes
of a function object.  A bound method is unwrapped to its `__func__` (always
a function); any other value fails the `isfunction` check with `TypeError`;
a function whose `__code__` fails `iscode` raises `TypeError`.  The source's
two sequential `co_varnames[nargs]` reads (with `nargs` incremented after
the first when a `*args` exists) appear below with the increment unfolded
into the branch structure; an out-of-range read is an `IndexError`. -/

/-- The compiled-code attributes `inspect_getfullargspec` reads. -/
structure CodeObject where
  co_argcount : Nat
  co_kwonlyargcount : Nat
  co_varnames : List String
  co_flags : Nat
deriving DecidableEq

def CO_VARARGS : Nat := 4
def CO_VARKEYWORDS : Nat := 8

/-- A `__code__` attribute value: a genuine code object, or any other value
(with its repr) for the `inspect.iscode` check. -/
inductive PyCode where
  | code (co : CodeObject)
  | notCode (r : String)
deriving DecidableEq

/-- A Python function object, with the attributes the source reads. -/
structure PyFunction where
  __code__ : PyCode
  __defaults__ : Option (List PyVal)
  __kwdefaults__ : Option (List (String × PyVal))
  __annotations__ : List (String × PyVal)
deriving DecidableEq

/-- A value passed to `inspect_getfullargspec`: a plain function, a bound
method wrapping its `__func__`, or any other value (with its repr). -/
inductive PyCallable where
  | function (f : PyFunction)
  | method (f : PyFunction)
  | other (r : String)
deriving DecidableEq

/-- The exceptions the embedded introspection raises. -/
inductive PyErr where
  | typeError (msg : String)
  | indexError
deriving DecidableEq

/-- compat.py `FullArgSpec` (lines 45-52).  `defaults` and `kwonlydefaults`
are optional because the source forwards `__defaults__`/`__kwdefaults__`,
which are `None` when no default exists (even though the class annotates
`kwonlydefaults` as a dict). -/
structure FullArgSpec where
  args : List String
  varargs : Option String
  varkw : Option String
  defaults : Option (List PyVal)
  kwonlyargs : List String
  kwonlydefaults : Option (List (String × PyVal))
  annotations : List (String × PyVal)
deriving DecidableEq

/-- The body of `inspect_getfullargspec` after the two type checks: slice
the positional and keyword-only names out of `co_varnames` and read the
variadic names at the running offset. -/
def spec_from_code (co : CodeObject) (f : PyFunction) : Except PyErr FullArgSpec :=
  let nargs := co.co_argcount
  let names := co.co_varnames
  let nkwargs := co.co_kwonlyargcount
  let args := names.take nargs
  let kwonlyargs := (names.drop nargs).take nkwargs
  let nargs1 := nargs + nkwargs
  if co.co_flags &&& CO_VARARGS ≠ 0 then
    match names[nargs1]? with
    | none => .error .indexError
    | some va =>
        if co.co_flags &&& CO_VARKEYWORDS ≠ 0 then
          match names[nargs1 + 1]? with
          | none => .error .indexError
          | some vk =>
              .ok ⟨args, some va, some vk, f.__defaults__, kwonlyargs,
                f.__kwdefaults__, f.__annotations__⟩
        else
          .ok ⟨args, some va, none, f.__defaults__, kwonlyargs,
            f.__kwdefaults__, f.__annotations__⟩
  else
    if co.co_flags &&& CO_VARKEYWORDS ≠ 0 then
      match names[nargs1]? with
      | none => .error .indexError
      | some vk =>
          .ok ⟨args, none, some vk, f.__defaults__, kwonlyargs,
            f.__kwdefaults__, f.__annotations__⟩
    else
      .ok ⟨args, none, none, f.__defaults__, kwonlyargs,
        f.__kwdefaults__, f.__annotations__⟩

/-- compat.py `inspect_getfullargspec`: unwrap a bound method to its
underlying function, reject anything that is not a function or whose
`__code__` is not a code object with `TypeError`, then read the code. -/
def inspect_getfullargspec (func : PyCallable) : Except PyErr FullArgSpec :=
  match func with
  | .other r => .error (.typeError (r ++ " is not a Python function"))
  | .method f | .function f =>
      match f.__code__ with
      | .notCode r => .error (.typeError (r ++ " is not a code object"))
      | .code co => spec_from_code co f

/-! ### The compiled form of a declaration -/

/-- A function declaration: the parameter structure a `def` declares.
`posDefaults` aligns with the tail of `posParams`; each keyword-only
parameter optionally carries a default; `bodyLocals` are the body's other
local variables. -/
structure FunctionDecl where
  posParams : List String
  posDefaults : List PyVal
  vararg : Option String
  kwonlyParams : List (String × Option PyVal)
  kwarg : Option String
  annotations : List (String × PyVal)
  bodyLocals : List String

def optList : Option String → List String
  | none => []
  | some s => [s]

/-- Modelled from the runtime compiler: the function object CPython builds
for a declaration.  `co_varnames` orders the positional parameters first,
then the keyword-only ones, then `*args`, then `**kwargs`, then the other
locals; `__defaults__` and `__kwdefaults__` are `None` rather than empty
containers when no default exists. -/
def compileFunction (d : FunctionDecl) : PyFunction :=
  { __code__ := .code
      { co_argcount := d.posParams.length
        co_kwonlyargcount := d.kwonlyParams.length
        co_varnames := d.posParams ++ d.kwonlyParams.map Prod.fst ++
          optList d.vararg ++ optList d.kwarg ++ d.bodyLocals
        co_flags := (if d.vararg.isSome then CO_VARARGS else 0) +
          (if d.kwarg.isSome then CO_VARKEYWORDS else 0) }
    __defaults__ := if d.posDefaults = [] then none else some d.posDefaults
    __kwdefaults__ :=
      let kd := d.kwonlyParams.filterMap (fun p => p.2.map (fun v => (p.1, v)))
      if kd = [] then none else some kd
    __annotations__ := d.annotations }

/-- The `FullArgSpec` a declaration's parameter structure denotes. -/
def declSpec (d : FunctionDecl) : FullArgSpec :=
  { args := d.posParams
    varargs := d.vararg
    varkw := d.kwarg
    defaults := if d.posDefaults = [] then none else some d.posDefaults
    kwonlyargs := d.kwonlyParams.map Prod.fst
    kwonlydefaults :=
      let kd := d.kwonlyParams.filterMap (fun p => p.2.map (fun v => (p.1, v)))
      if kd = [] then none else some kd
    annotations := d.annotations }

/-- Element at the length of a prefix of an append. -/
theorem getElem?_append_length {α : Type} (l : List α) (x : α) (rest : List α) :
    (l ++ x :: rest)[l.length]? = some x := by
  rw [List.getElem?_append_right (le_refl l.length)]
  simp

/-- Element one past the length of a prefix of an append. -/
theorem getElem?_append_length_succ {α : Type} (l : List α) (x y : α)
    (rest : List α) :
    (l ++ x :: y :: rest)[l.length + 1]? = some y := by
  rw [List.getElem?_append_right (Nat.le_succ_of_le (le_refl l.length))]
  simp

/-- Element just past a doubled prefix of an append. -/
theorem getElem?_nested (pos kwN : List String) (x : String) (rest : List String) :
    (pos ++ (kwN ++ x :: rest))[pos.length + kwN.length]? = some x := by
  rw [← List.append_assoc]
  rw [show pos.length + kwN.length = (pos ++ kwN).length from (List.length_append _ _).symm]
  exact getElem?_append_length _ x rest

/-- Element one further past a doubled prefix of an append. -/
theorem getElem?_nested_succ (pos kwN : List String) (x y : String) (rest : List String) :
    (pos ++ (kwN ++ x :: y :: rest))[pos.length + kwN.length + 1]? = some y := by
  rw [← List.append_assoc]
  rw [show pos.length + kwN.length = (pos ++ kwN).length from (List.length_append _ _).symm]
  exact getElem?_append_length_succ _ x y rest

/-- On the compiled form of any declaration, `inspect_getfullargspec`
returns exactly the declaration's parameter structure. -/
theorem getfullargspec_compile (d : FunctionDecl) :
    inspect_getfullargspec (.function (compileFunction d)) = .ok (declSpec d) := by
  obtain ⟨pos, pdefs, va, kwp, kw, anns, locs⟩ := d
  rw [inspect_getfullargspec]
  rw [show (compileFunction ⟨pos, pdefs, va, kwp, kw, anns, locs⟩).__code__ =
      PyCode.code
        { co_argcount := pos.length
          co_kwonlyargcount := kwp.length
          co_varnames := pos ++ kwp.map Prod.fst ++ optList va ++ optList kw ++ locs
          co_flags := (if va.isSome then CO_VARARGS else 0) +
            (if kw.isSome then CO_VARKEYWORDS else 0) } from rfl]
  unfold spec_from_code
  have hkwlen : kwp.length = (kwp.map Prod.fst).length := (List.length_map _ _).symm
  cases va with
  | some a =>
      cases kw with
      | some b2 =>
          simp only [Option.isSome_some, if_true, optList, CO_VARARGS, CO_VARKEYWORDS,
            List.cons_append, List.nil_append, List.append_assoc]
          rw [hkwlen]
          simp only [if_pos (show (4 + 8) &&& 4 ≠ 0 by decide),
            if_pos (show (4 + 8) &&& 8 ≠ 0 by decide), getElem?_nested,
            getElem?_nested_succ, List.take_left, List.drop_left]
          rfl
      | none =>
          simp only [Option.isSome_some, Option.isSome_none, if_true, if_false,
            optList, CO_VARARGS, CO_VARKEYWORDS, List.cons_append, List.nil_append,
            List.append_assoc]
          rw [hkwlen]
          simp only [if_pos (show (4 + 0) &&& 4 ≠ 0 by decide),
            if_neg (show ¬ (4 + 0) &&& 8 ≠ 0 by decide), getElem?_nested,
            List.take_left, List.drop_left]
          rfl
  | none =>
      cases kw with
      | some b2 =>
          simp only [Option.isSome_some, Option.isSome_none, if_true, if_false,
            optList, CO_VARARGS, CO_VARKEYWORDS, List.cons_append, List.nil_append,
            List.append_assoc]
          rw [hkwlen]
          simp only [if_neg (show ¬ (0 + 8) &&& 4 ≠ 0 by decide),
            if_pos (show (0 + 8) &&& 8 ≠ 0 by decide), getElem?_nested,
            List.take_left, List.drop_left]
          rfl
      | none =>
          simp only [Option.isSome_none, if_false, optList, List.nil_append,
            List.append_assoc]
          rw [hkwlen]
          simp only [if_neg (show ¬ (0 + 0) &&& 4 ≠ 0 by decide),
            if_neg (show ¬ (0 + 0) &&& 8 ≠ 0 by decide),
            List.take_left, List.drop_left]
          rfl

/-- C1: on the compiled form of every declaration -- any mix of positional,
defaulted, variadic-positional, keyword-only and variadic-keyword
parameters -- `inspect_getfullargspec` returns exactly the declaration's
parameter structure (`declSpec`), and on the bound method it returns the
same result as on the underlying function. -/
theorem getfullargspec_decl_spec (d : FunctionDecl) :
    inspect_getfullargspec (.function (compileFunction d)) = .ok (declSpec d) ∧
      inspect_getfullargspec (.method (compileFunction d)) =
        inspect_getfullargspec (.function (compileFunction d)) :=
  ⟨getfullargspec_compile d, rfl⟩

/-- Reading a genuine code object never raises `TypeError`; its only
failure is `IndexError`, on an out-of-range variadic-name read. -/
theorem spec_from_code_no_typeerror (co : CodeObject) (f : PyFunction) (m : String) :
    spec_from_code co f ≠ .error (.typeError m) := by
  intro hm
  unfold spec_from_code at hm
  cases h1 : co.co_varnames[co.co_argcount + co.co_kwonlyargcount]? with
  | none =>
      simp only [h1] at hm
      repeat' split at hm
      all_goals simp at hm
  | some va =>
      cases h2 : co.co_varnames[co.co_argcount + co.co_kwonlyargcount + 1]? with
      | none =>
          simp only [h1, h2] at hm
          repeat' split at hm
          all_goals simp at hm
      | some vk =>
          simp only [h1, h2] at hm
          repeat' split at hm
          all_goals simp at hm

/-- The claim's error condition: the input is not a function or bound
method (after unwrapping a bound method), or its `__code__` is not a code
object. -/
def not_introspectable : PyCallable → Bool
  | .other _ => true
  | .method f | .function f =>
      match f.__code__ with
      | .notCode _ => true
      | .code _ => false

/-- C6: `inspect_getfullargspec` raises `TypeError` exactly on inputs that
are not plain functions or bound methods, or whose compiled-code object is
absent or invalid; on the compiled form of every declaration (and on its
bound method) it returns a `FullArgSpec` without raising. -/
theorem getfullargspec_typeerror_iff :
    (∀ func : PyCallable,
        (∃ m, inspect_getfullargspec func = .error (.typeError m)) ↔
          not_introspectable func = true) ∧
      ∀ d : FunctionDecl,
        (inspect_getfullargspec (.function (compileFunction d))).isOk = true ∧
          (inspect_getfullargspec (.method (compileFunction d))).isOk = true := by
  constructor
  · intro func
    cases func with
    | other r =>
        exact ⟨fun _ => rfl, fun _ => ⟨r ++ " is not a Python function", rfl⟩⟩
    | function f =>
        cases hc : f.__code__ with
        | notCode r =>
            refine ⟨fun _ => by simp [not_introspectable, hc], fun _ => ?_⟩
            exact ⟨r ++ " is not a code object", by simp [inspect_getfullargspec, hc]⟩
        | code co =>
            constructor
            · rintro ⟨m, hm⟩
              rw [show inspect_getfullargspec (.function f) =
                  (match f.__code__ with
                    | .notCode r => .error (.typeError (r ++ " is not a code object"))
                    | .code co => spec_from_code co f) from rfl, hc] at hm
              exact absurd hm (spec_from_code_no_typeerror co f m)
            · intro h
              rw [show not_introspectable (.function f) =
                  (match f.__code__ with
                    | .notCode _ => true
                    | .code _ => false) from rfl, hc] at h
              exact absurd h (by simp)
    | method f =>
        cases hc : f.__code__ with
        | notCode r =>
            refine ⟨fun _ => by simp [not_introspectable, hc], fun _ => ?_⟩
            exact ⟨r ++ " is not a code object", by simp [inspect_getfullargspec, hc]⟩
        | code co =>
            constructor
            · rintro ⟨m, hm⟩
              rw [show inspect_getfullargspec (.method f) =
                  (match f.__code__ with
                    | .notCode r => .error (.typeError (r ++ " is not a code object"))
                    | .code co => spec_from_code co f) from rfl, hc] at hm
              exact absurd hm (spec_from_code_no_typeerror co f m)
            · intro h
              rw [show not_introspectable (.method f) =
                  (match f.__code__ with
                    | .notCode _ => true
                    | .code _ => false) from rfl, hc] at h
              exact absurd h (by simp)
  · intro d
    constructor
    · rw [getfullargspec_compile d]
      rfl
    · rw [show inspect_getfullargspec (.method (compileFunction d)) =
          inspect_getfullargspec (.function (compileFunction d)) from rfl,
        getfullargspec_compile d]
      rfl

/-- C10: when a declaration has keyword-only parameters but none of them
carries a default, the returned `kwonlydefaults` is `None`, not an empty
mapping; likewise `defaults` is `None`, not an empty tuple, when no
positional parameter has a default. -/
theorem getfullargspec_absent_defaults (d : FunctionDecl)
    (hkw : d.kwonlyParams ≠ [] ∧ ∀ p ∈ d.kwonlyParams, p.2 = none)
    (hpos : d.posDefaults = []) :
    inspect_getfullargspec (.function (compileFunction d)) = .ok (declSpec d) ∧
      (declSpec d).kwonlydefaults = none ∧ (declSpec d).defaults = none := by
  refine ⟨getfullargspec_compile d, ?_, ?_⟩
  · have hnil : d.kwonlyParams.filterMap (fun p => p.2.map (fun v => (p.1, v))) = [] := by
      apply List.filterMap_eq_nil_iff.mpr
      intro p hp
      rw [hkw.2 p hp]
      rfl
    simp [declSpec, hnil]
  · simp [declSpec, hpos]

/-- Witness for `getfullargspec_absent_defaults` at the concrete declaration
`def f(a, *, c): pass`: one positional parameter without default, one
keyword-only parameter without default. -/
theorem getfullargspec_absent_defaults_witness :
    inspect_getfullargspec (.function (compileFunction
        ⟨["a"], [], none, [("c", none)], none, [], []⟩)) =
      .ok (declSpec ⟨["a"], [], none, [("c", none)], none, [], []⟩) ∧
      (declSpec ⟨["a"], [], none, [("c", none)], none, [], []⟩).kwonlydefaults = none ∧
      (declSpec ⟨["a"], [], none, [("c", none)], none, [], []⟩).defaults = none :=
  getfullargspec_absent_defaults ⟨["a"], [], none, [("c", none)], none, [], []⟩
    (by simp) rfl

end Compat
